import Mathlib

/-!
Verification of the vertical address layout engine of `envejp.py`
(Japanese envelope PDF generator).

The embedding models the pure layout computation of `create_pdf` and
`adjust_start_position`:

* `mm` is reportlab's millimetre unit, 72 / 25.4 points, as a rational.
* `maxHeight` is the fold computed at the top of `adjust_start_position`
  (lines 542-546 of the source).
* `adjust_start_position` is the overflow-avoidance adjustment
  (lines 539-555).
* `postalGlyphs` is the postal-code column drawing loop (lines 517-523),
  with the injected `stringWidth` measurement as a function parameter.
* `columnGlyphs` is the per-line drawing loop with its bottom-margin
  break (lines 531-535), and `linesGlyphs` the enclosing loop over
  active lines (lines 526-535).
* `create_pdf_layout` assembles the whole glyph sequence with the
  constants hard-coded in `create_pdf` (lines 499-535).

Coordinates are rationals: the source works in Python floats, but every
property checked here is exact coordinate arithmetic.
-/

/-- One millimetre in points, as used by reportlab: 72 / 25.4. -/
def mm : ℚ := 360 / 127

/-- Whitespace as recognized by Python's `str.isspace()` / `str.strip()`:
the ASCII whitespace controls and space, the separators U+001C-U+001F,
NEL U+0085, NBSP U+00A0, the Ogham space mark U+1680, the Unicode space
separators U+2000-U+200A, the line and paragraph separators U+2028 and
U+2029, NNBSP U+202F, MMSP U+205F, and the ideographic space U+3000
(the standard space of Japanese text). -/
def isPySpace (c : Char) : Bool :=
  c.val == 0x09 || c.val == 0x0a || c.val == 0x0b || c.val == 0x0c ||
  c.val == 0x0d || c.val == 0x1c || c.val == 0x1d || c.val == 0x1e ||
  c.val == 0x1f || c.val == 0x20 || c.val == 0x85 || c.val == 0xa0 ||
  c.val == 0x1680 || (0x2000 ≤ c.val && c.val ≤ 0x200a) ||
  c.val == 0x2028 || c.val == 0x2029 || c.val == 0x202f ||
  c.val == 0x205f || c.val == 0x3000

/-- Python's `str.strip()`: remove leading and trailing whitespace,
for the full Unicode whitespace set of `isPySpace`. -/
def strip (s : String) : String :=
  ⟨((s.data.dropWhile isPySpace).reverse.dropWhile isPySpace).reverse⟩

/-- A single placed character: output of the layout engine. -/
structure Glyph where
  x : ℚ
  y : ℚ
  ch : Char
deriving DecidableEq, Repr

/-- The five form fields passed to the layout. -/
structure AddressRecord where
  postalCode : String
  addressLine1 : String
  addressLine2 : String
  company : String
  recipient : String

/-- The active line list built in `create_pdf` (lines 489-497): each of
the four fields is stripped and appended only when non-blank. -/
def activeLines (r : AddressRecord) : List String :=
  (if strip r.addressLine1 ≠ "" then [strip r.addressLine1] else [])
    ++ (if strip r.addressLine2 ≠ "" then [strip r.addressLine2] else [])
    ++ (if strip r.company ≠ "" then [strip r.company] else [])
    ++ (if strip r.recipient ≠ "" then [strip r.recipient] else [])

/-- The accumulator loop of `adjust_start_position` (lines 544-546):
`max_height = max(max_height, len(line) * char_spacing + (i+1) * 10*mm)`
over the enumerated lines, starting at index `i`. -/
def maxHeightAux (char_spacing : ℚ) : List String → ℕ → ℚ → ℚ
  | [], _, acc => acc
  | line :: rest, i, acc =>
      maxHeightAux char_spacing rest (i + 1)
        (max acc ((line.length : ℚ) * char_spacing + ((i : ℚ) + 1) * 10 * mm))

/-- Value of `max_height` as computed by `adjust_start_position` (lines 542-546):
seeded with `len(postal_code) * char_spacing`, folded over the lines. -/
def maxHeight (postal_code : String) (char_spacing : ℚ) (lines : List String) : ℚ :=
  maxHeightAux char_spacing lines 0 ((postal_code.length : ℚ) * char_spacing)

/-- The per-line vertical extent used by `adjust_start_position`
(line 545): `len(line) * char_spacing + (i + 1) * 10 * mm`. -/
def lineHeight (char_spacing : ℚ) (i : ℕ) (line : String) : ℚ :=
  (line.length : ℚ) * char_spacing + ((i : ℚ) + 1) * 10 * mm

/-- Model of `adjust_start_position` (lines 539-555): the overflow-avoidance
policy. `margin_top` is hard-coded to `10 * mm` inside the function;
`available_height` is computed but unused, as in the source. -/
def adjust_start_position (lines : List String) (postal_code : String)
    (y_start char_spacing page_height margin_bottom : ℚ) : ℚ :=
  let max_height := maxHeight postal_code char_spacing lines
  let margin_top := 10 * mm
  let _available_height := page_height - margin_bottom - margin_top
  if y_start - max_height < margin_bottom then
    min y_start (page_height - margin_top - max_height + y_start)
  else
    y_start

/-- The postal-code drawing loop of `create_pdf` (lines 517-523),
with running character index `i` (`y_postal = y_start - i * char_spacing`).
The postal mark `〒` is drawn at `x_postal - stringWidth('〒') / 4`;
every other character at `x_postal`. `width` is the injected
`c.stringWidth(char, "JapaneseFont", 14)` measurement. -/
def postalGlyphsAux (width : Char → ℚ) (x_postal y_start char_spacing : ℚ) :
    List Char → ℕ → List Glyph
  | [], _ => []
  | c :: rest, i =>
      let y := y_start - (i : ℚ) * char_spacing
      (if c = '〒' then Glyph.mk (x_postal - width c / 4) y c
       else Glyph.mk x_postal y c)
        :: postalGlyphsAux width x_postal y_start char_spacing rest (i + 1)

/-- Glyphs of the postal-code column: the loop started at index 0. -/
def postalGlyphs (width : Char → ℚ) (x_postal y_start char_spacing : ℚ)
    (postal_code : List Char) : List Glyph :=
  postalGlyphsAux width x_postal y_start char_spacing postal_code 0

/-- The inner character loop for one address/company/recipient column
(lines 531-535): character `j` goes at `y - j * char_spacing`, and the
loop breaks (dropping the rest of the line) as soon as
`current_y < margin_bottom`. -/
def columnGlyphsAux (x y char_spacing margin_bottom : ℚ) :
    List Char → ℕ → List Glyph
  | [], _ => []
  | c :: rest, j =>
      let current_y := y - (j : ℚ) * char_spacing
      if current_y < margin_bottom then []
      else Glyph.mk x current_y c
        :: columnGlyphsAux x y char_spacing margin_bottom rest (j + 1)

/-- Glyphs of one column: the inner loop started at index 0. -/
def columnGlyphs (x y char_spacing margin_bottom : ℚ) (chars : List Char) :
    List Glyph :=
  columnGlyphsAux x y char_spacing margin_bottom chars 0

/-- The postal-column x position (line 514): `x_start + line_spacing`. -/
def x_postal (x_start line_spacing : ℚ) : ℚ := x_start + line_spacing

/-- The outer loop over active lines (lines 526-535): line `i` forms a
column at `x = x_start - i * line_spacing`, starting at
`y = y_start - (i+1) * 10 * mm`. -/
def linesGlyphsAux (x_start y_start line_spacing char_spacing margin_bottom : ℚ) :
    List String → ℕ → List Glyph
  | [], _ => []
  | line :: rest, i =>
      columnGlyphs (x_start - (i : ℚ) * line_spacing)
          (y_start - ((i : ℚ) + 1) * 10 * mm) char_spacing margin_bottom line.data
        ++ linesGlyphsAux x_start y_start line_spacing char_spacing margin_bottom
            rest (i + 1)

/-- Glyphs of the whole address block: the outer loop started at index 0. -/
def linesGlyphs (x_start y_start line_spacing char_spacing margin_bottom : ℚ)
    (lines : List String) : List Glyph :=
  linesGlyphsAux x_start y_start line_spacing char_spacing margin_bottom lines 0

/-- The full glyph sequence produced by `create_pdf` (lines 478-535),
with the layout constants hard-coded there: A5-landscape page height
`148 * mm`, `x_start = 150 * mm`, `y_start = 140 * mm`,
`line_spacing = 12 * mm`, `char_spacing = 20`, margins `10 * mm`. -/
def create_pdf_layout (width : Char → ℚ) (r : AddressRecord) : List Glyph :=
  let page_height := 148 * mm
  let lines := activeLines r
  let postal_code := strip r.postalCode
  let x_start := 150 * mm
  let y_start := 140 * mm
  let line_spacing := 12 * mm
  let char_spacing : ℚ := 20
  let margin_bottom := 10 * mm
  let y_start :=
    adjust_start_position lines postal_code y_start char_spacing page_height
      margin_bottom
  postalGlyphs width (x_postal x_start line_spacing) y_start char_spacing
      postal_code.data
    ++ linesGlyphs x_start y_start line_spacing char_spacing margin_bottom lines

/-! ### Helper lemmas -/

theorem maxHeightAux_spec (cs : ℚ) (lines : List String) (i : ℕ) (acc : ℚ) :
    acc ≤ maxHeightAux cs lines i acc ∧
    (∀ j (h : j < lines.length),
       lineHeight cs (i + j) (lines.get ⟨j, h⟩) ≤ maxHeightAux cs lines i acc) ∧
    (maxHeightAux cs lines i acc = acc ∨
      ∃ j, ∃ h : j < lines.length,
        maxHeightAux cs lines i acc = lineHeight cs (i + j) (lines.get ⟨j, h⟩)) := by
  induction lines generalizing i acc with
  | nil =>
      refine ⟨le_refl _, ?_, Or.inl rfl⟩
      intro j h
      simp at h
  | cons line rest ih =>
      have hstep :
          maxHeightAux cs (line :: rest) i acc =
            maxHeightAux cs rest (i + 1)
              (max acc ((line.length : ℚ) * cs + ((i : ℚ) + 1) * 10 * mm)) := rfl
      set acc' := max acc ((line.length : ℚ) * cs + ((i : ℚ) + 1) * 10 * mm) with hacc'
      obtain ⟨hle, hall, hcases⟩ := ih (i + 1) acc'
      refine ⟨?_, ?_, ?_⟩
      · rw [hstep]
        exact le_trans (le_max_left _ _) hle
      · intro j h
        rw [hstep]
        cases j with
        | zero =>
            have h0 : lineHeight cs (i + 0) line ≤ acc' := by
              rw [hacc']
              simp [lineHeight]
            exact le_trans h0 hle
        | succ j' =>
            have h' : j' < rest.length := by simpa using h
            have := hall j' h'
            have harith : i + 1 + j' = i + (j' + 1) := by omega
            rw [harith] at this
            simpa using this
      · rw [hstep]
        rcases hcases with heq | ⟨j, hj, heq⟩
        · rw [heq, hacc']
          rcases max_choice acc ((line.length : ℚ) * cs + ((i : ℚ) + 1) * 10 * mm)
            with hm | hm
          · exact Or.inl hm
          · refine Or.inr ⟨0, by simp, ?_⟩
            rw [hm]
            simp [lineHeight]
        · refine Or.inr ⟨j + 1, by simpa using hj, ?_⟩
          rw [heq]
          have harith : i + 1 + j = i + (j + 1) := by omega
          rw [harith]
          congr 1

/-! ### Claim theorems -/
/-- C2: for every record, the overflow check's `maxHeight` (over the
record's active lines and postal code) is the maximum of
`len(postalCode) * charSpacing` and, over each active line at 0-based
index `i`, `len(line) * charSpacing + (i + 1) * 10 * mm`: it bounds
every one of these quantities and is attained by one of them. -/
theorem maxHeight_is_max (r : AddressRecord) (cs : ℚ) :
    (((strip r.postalCode).length : ℚ) * cs ≤
       maxHeight (strip r.postalCode) cs (activeLines r)) ∧
    (∀ j (h : j < (activeLines r).length),
       lineHeight cs j ((activeLines r).get ⟨j, h⟩) ≤
         maxHeight (strip r.postalCode) cs (activeLines r)) ∧
    (maxHeight (strip r.postalCode) cs (activeLines r) =
        ((strip r.postalCode).length : ℚ) * cs ∨
      ∃ j, ∃ h : j < (activeLines r).length,
        maxHeight (strip r.postalCode) cs (activeLines r) =
          lineHeight cs j ((activeLines r).get ⟨j, h⟩)) := by
  obtain ⟨hle, hall, hcases⟩ :=
    maxHeightAux_spec cs (activeLines r) 0 (((strip r.postalCode).length : ℚ) * cs)
  refine ⟨hle, ?_, ?_⟩
  · intro j h
    simpa using hall j h
  · rcases hcases with heq | ⟨j, hj, heq⟩
    · exact Or.inl heq
    · exact Or.inr ⟨j, hj, by simpa using heq⟩

/-- C2 witness: at a concrete record (`postal = "12"`, a single active
line `"abc"`) the bound on the line's extent holds. -/
theorem maxHeight_is_max_witness :
    lineHeight 20 0
        ((activeLines ⟨"12", "abc", "", "", ""⟩).get ⟨0, by decide⟩) ≤
      maxHeight (strip "12") 20 (activeLines ⟨"12", "abc", "", "", ""⟩) :=
  (maxHeight_is_max ⟨"12", "abc", "", "", ""⟩ 20).2.1 0 (by decide)

/-- C1: for every record, geometry and parameters, the adjustment
recomputes the start exactly when `startY - maxHeight < marginBottom`,
in which case it returns
`min startY (pageHeight - marginTop - maxHeight + startY)`
(with `marginTop = 10 * mm` as hard-coded in the function);
otherwise it returns the requested `startY` unchanged. -/
theorem adjust_start_position_cases (r : AddressRecord) (ys cs ph mb : ℚ) :
    (ys - maxHeight (strip r.postalCode) cs (activeLines r) < mb →
       adjust_start_position (activeLines r) (strip r.postalCode) ys cs ph mb =
         min ys (ph - 10 * mm -
           maxHeight (strip r.postalCode) cs (activeLines r) + ys)) ∧
    (¬ ys - maxHeight (strip r.postalCode) cs (activeLines r) < mb →
       adjust_start_position (activeLines r) (strip r.postalCode) ys cs ph mb = ys) := by
  constructor
  · intro h
    simp only [adjust_start_position, if_pos h]
  · intro h
    simp only [adjust_start_position, if_neg h]

/-- C1 witness: a concrete triggered instance (postal `"12345"`,
`charSpacing = 20`, `startY = 100 < maxHeight + marginBottom = 150`). -/
theorem adjust_start_position_cases_witness :
    adjust_start_position (activeLines ⟨"12345", "", "", "", ""⟩) (strip "12345")
        100 20 200 50 =
      min 100 (200 - 10 * mm -
        maxHeight (strip "12345") 20 (activeLines ⟨"12345", "", "", "", ""⟩) + 100) := by
  apply (adjust_start_position_cases ⟨"12345", "", "", "", ""⟩ 100 20 200 50).1
  have hl : (strip "12345").length = 5 := rfl
  have ha : activeLines ⟨"12345", "", "", "", ""⟩ = [] := rfl
  rw [ha]
  norm_num [maxHeight, maxHeightAux, hl]

/-- C10: for every input, the adjusted start is at most the requested
`startY`: the adjustment never raises the start. -/
theorem adjust_le_start (lines : List String) (pc : String) (ys cs ph mb : ℚ) :
    adjust_start_position lines pc ys cs ph mb ≤ ys := by
  simp only [adjust_start_position]
  split
  · exact min_le_left _ _
  · exact le_refl _

/-- C4: for every input with non-negative bottom margin whose
`maxHeight` is at most `availableHeight = pageHeight - marginBottom -
marginTop`, the adjustment returns the requested `startY` unchanged. -/
theorem adjust_no_overflow_id (lines : List String) (pc : String) (ys cs ph mb : ℚ)
    (hmb : 0 ≤ mb)
    (h : maxHeight pc cs lines ≤ ph - mb - 10 * mm) :
    adjust_start_position lines pc ys cs ph mb = ys := by
  simp only [adjust_start_position]
  split
  · exact min_eq_left (by linarith)
  · rfl

/-- C4 witness: a concrete non-overflowing (and even triggered)
instance returns `startY` unchanged. -/
theorem adjust_no_overflow_id_witness :
    adjust_start_position [] "1" 40 20 200 28 = 40 := by
  apply adjust_no_overflow_id
  · norm_num
  · have hl : ("1" : String).length = 1 := rfl
    norm_num [maxHeight, maxHeightAux, hl, mm]

/-- C3 counterexample: postal code of 10 characters, `charSpacing = 20`
(so `maxHeight = 200`), no active lines, `startY = 100`,
`pageHeight = 200`, `marginBottom = 10`. The adjustment is triggered
(`100 - 200 < 10`), yet the recomputed start `100 - 3600/127` both
fails the bottom-margin guarantee
(`adjusted - maxHeight = -3600/127 - 100 < 10`) and lies strictly
below the requested `startY = 100`. -/
theorem adjust_overflow_guarantee_cex :
    ((100 : ℚ) - maxHeight "0123456789" 20 [] < 10) ∧
    (adjust_start_position [] "0123456789" 100 20 200 10 -
        maxHeight "0123456789" 20 [] < 10) ∧
    (adjust_start_position [] "0123456789" 100 20 200 10 < 100) := by
  have hl : ("0123456789" : String).length = 10 := rfl
  refine ⟨?_, ?_, ?_⟩ <;>
    norm_num [adjust_start_position, maxHeight, maxHeightAux, hl, mm]

/-- C3 amended: whenever the adjustment is triggered
(`startY - maxHeight < marginBottom`), the recomputed start is at most
the originally requested `startY` (never above it), and it equals
`startY` exactly when `maxHeight ≤ pageHeight - marginTop`; the
recomputed value does not in general place the deepest glyph at or
above the bottom margin. -/
theorem adjust_triggered_amended (lines : List String) (pc : String)
    (ys cs ph mb : ℚ) (h : ys - maxHeight pc cs lines < mb) :
    adjust_start_position lines pc ys cs ph mb ≤ ys ∧
    (adjust_start_position lines pc ys cs ph mb = ys ↔
       maxHeight pc cs lines ≤ ph - 10 * mm) := by
  simp only [adjust_start_position, if_pos h]
  constructor
  · exact min_le_left _ _
  · rw [min_eq_left_iff]
    constructor <;> intro hx <;> linarith

/-- C3 amended witness: a triggered instance with
`maxHeight = 100 ≤ pageHeight - marginTop`, where the recomputed start
stays exactly at the requested `startY = 100`. -/
theorem adjust_triggered_amended_witness :
    adjust_start_position [] "12345" 100 20 200 50 ≤ 100 ∧
    (adjust_start_position [] "12345" 100 20 200 50 = 100 ↔
       maxHeight "12345" 20 [] ≤ 200 - 10 * mm) := by
  apply adjust_triggered_amended
  have hl : ("12345" : String).length = 5 := rfl
  norm_num [maxHeight, maxHeightAux, hl]

theorem columnGlyphsAux_length_le (x y cs mb : ℚ) (chars : List Char) (j : ℕ) :
    (columnGlyphsAux x y cs mb chars j).length ≤ chars.length := by
  induction chars generalizing j with
  | nil => simp [columnGlyphsAux]
  | cons c rest ih =>
      simp only [columnGlyphsAux]
      split
      · simp
      · simpa using ih (j + 1)

theorem columnGlyphsAux_full (x y cs mb : ℚ) (chars : List Char) (j : ℕ)
    (hne : chars ≠ [])
    (hfull : (columnGlyphsAux x y cs mb chars j).length = chars.length) :
    mb ≤ y - ((j : ℚ) + chars.length - 1) * cs := by
  induction chars generalizing j with
  | nil => exact absurd rfl hne
  | cons c rest ih =>
      simp only [columnGlyphsAux] at hfull
      split at hfull
      · simp at hfull
      · rename_i hge
        cases rest with
        | nil =>
            simpa using le_of_not_lt hge
        | cons c' rest' =>
            have hfull' :
                (columnGlyphsAux x y cs mb (c' :: rest') (j + 1)).length =
                  (c' :: rest').length := by
              simpa using hfull
            have h2 := ih (j + 1) (by simp) hfull'
            have harith : ((j : ℚ) + (c :: c' :: rest').length - 1) =
                (((j + 1 : ℕ) : ℚ) + (c' :: rest').length - 1) := by
              simp only [List.length_cons]
              push_cast
              ring
            rw [harith]
            exact h2

theorem columnGlyphsAux_y_ge (x y cs mb : ℚ) (chars : List Char) (j : ℕ) :
    ∀ g ∈ columnGlyphsAux x y cs mb chars j, mb ≤ g.y := by
  induction chars generalizing j with
  | nil => simp [columnGlyphsAux]
  | cons c rest ih =>
      simp only [columnGlyphsAux]
      split
      · simp
      · rename_i hge
        intro g hg
        rcases List.mem_cons.mp hg with hg | hg
        · rw [hg]
          exact le_of_not_lt hge
        · exact ih (j + 1) g hg

/-- C5: for every column whose final character's computed y position
(`columnStartY - (len - 1) * charSpacing`) falls below `marginBottom`,
the drawing loop emits strictly fewer glyphs than the line has
characters, and no emitted glyph of the column has `y < marginBottom`;
the loop is total (no error), the remaining characters are dropped. -/
theorem column_truncation (x y cs mb : ℚ) (chars : List Char)
    (hne : chars ≠ [])
    (hover : y - ((chars.length : ℚ) - 1) * cs < mb) :
    (columnGlyphs x y cs mb chars).length < chars.length ∧
    ∀ g ∈ columnGlyphs x y cs mb chars, mb ≤ g.y := by
  constructor
  · rcases lt_or_eq_of_le (columnGlyphsAux_length_le x y cs mb chars 0) with h | h
    · exact h
    · exfalso
      have := columnGlyphsAux_full x y cs mb chars 0 hne h
      rw [show ((0 : ℕ) : ℚ) + (chars.length : ℚ) - 1 =
            (chars.length : ℚ) - 1 by push_cast; ring] at this
      linarith
  · exact columnGlyphsAux_y_ge x y cs mb chars 0

/-- C5 witness: a two-character column starting at `y = 10` with
`charSpacing = 20` and `marginBottom = 0`: the second character would
land at `-10 < 0`, so only one glyph is emitted. -/
theorem column_truncation_witness :
    (columnGlyphs 0 10 20 0 ['a', 'b']).length < (['a', 'b'] : List Char).length :=
  (column_truncation 0 10 20 0 ['a', 'b'] (by simp) (by norm_num)).1

theorem columnGlyphsAux_x_eq (x y cs mb : ℚ) (chars : List Char) (j : ℕ) :
    ∀ g ∈ columnGlyphsAux x y cs mb chars j, g.x = x := by
  induction chars generalizing j with
  | nil => simp [columnGlyphsAux]
  | cons c rest ih =>
      simp only [columnGlyphsAux]
      split
      · simp
      · intro g hg
        rcases List.mem_cons.mp hg with hg | hg
        · rw [hg]
        · exact ih (j + 1) g hg

theorem linesGlyphsAux_x (xs ys ls cs mb : ℚ) (lines : List String) (i : ℕ) :
    ∀ g ∈ linesGlyphsAux xs ys ls cs mb lines i,
      ∃ k, i ≤ k ∧ k < i + lines.length ∧ g.x = xs - (k : ℚ) * ls := by
  induction lines generalizing i with
  | nil => simp [linesGlyphsAux]
  | cons line rest ih =>
      intro g hg
      simp only [linesGlyphsAux, List.mem_append] at hg
      rcases hg with hg | hg
      · refine ⟨i, le_refl _, by simp, ?_⟩
        exact columnGlyphsAux_x_eq _ _ _ _ _ 0 g hg
      · obtain ⟨k, hk1, hk2, hk3⟩ := ih (i + 1) g hg
        exact ⟨k, by omega, by simp; omega, hk3⟩

/-- C6: with positive column spacing, the address/company/recipient
column x positions `startX - i * columnSpacing` are strictly decreasing
in the field index; every glyph of the address block sits at such a
position for some column index `k` below the number of active lines;
and the postal column at `x_postal = startX + columnSpacing` lies
strictly to the right of every address-block glyph. -/
theorem column_x_ordering (xs ys ls cs mb : ℚ) (lines : List String)
    (hls : 0 < ls) :
    (∀ i j : ℕ, i < j → xs - (j : ℚ) * ls < xs - (i : ℚ) * ls) ∧
    (∀ g ∈ linesGlyphs xs ys ls cs mb lines,
       (∃ k, k < lines.length ∧ g.x = xs - (k : ℚ) * ls) ∧
         g.x < x_postal xs ls) := by
  constructor
  · intro i j hij
    have : (i : ℚ) < (j : ℚ) := by exact_mod_cast hij
    nlinarith
  · intro g hg
    obtain ⟨k, hk1, hk2, hk3⟩ := linesGlyphsAux_x xs ys ls cs mb lines 0 g hg
    refine ⟨⟨k, by omega, hk3⟩, ?_⟩
    rw [hk3, x_postal]
    have hk0 : (0 : ℚ) ≤ (k : ℚ) := by positivity
    nlinarith

/-- C6 witness: at a concrete layout (`startX = 100`,
`columnSpacing = 12`), column 1 lies strictly left of column 0. -/
theorem column_x_ordering_witness :
    (100 : ℚ) - ((1 : ℕ) : ℚ) * 12 < 100 - ((0 : ℕ) : ℚ) * 12 :=
  (column_x_ordering 100 100 12 20 0 ["a"] (by norm_num)).1 0 1 (by norm_num)

theorem postalGlyphsAux_x_eq (width : Char → ℚ) (xp ys cs : ℚ)
    (chars : List Char) (i : ℕ) :
    ∀ g ∈ postalGlyphsAux width xp ys cs chars i,
      (g.ch = '〒' → g.x = xp - width '〒' / 4) ∧ (g.ch ≠ '〒' → g.x = xp) := by
  induction chars generalizing i with
  | nil => simp [postalGlyphsAux]
  | cons c rest ih =>
      intro g hg
      simp only [postalGlyphsAux, List.mem_cons] at hg
      rcases hg with hg | hg
      · by_cases hc : c = '〒'
        · rw [if_pos hc] at hg
          subst hg
          subst hc
          exact ⟨fun _ => rfl, fun h => absurd rfl h⟩
        · rw [if_neg hc] at hg
          subst hg
          exact ⟨fun h => absurd h hc, fun _ => rfl⟩
      · exact ih (i + 1) g hg

/-- C7: in the postal-code column, the postal mark `〒` is placed at
`x_postal - width('〒') / 4` and every other character at `x_postal`;
whenever the injected width measurement of the mark is positive, each
mark glyph sits strictly left of every non-mark glyph of the column. -/
theorem postal_mark_shift (width : Char → ℚ) (xp ys cs : ℚ) (pc : List Char) :
    (∀ g ∈ postalGlyphs width xp ys cs pc,
       (g.ch = '〒' → g.x = xp - width '〒' / 4) ∧ (g.ch ≠ '〒' → g.x = xp)) ∧
    (0 < width '〒' →
       ∀ g ∈ postalGlyphs width xp ys cs pc,
         ∀ g' ∈ postalGlyphs width xp ys cs pc,
           g.ch = '〒' → g'.ch ≠ '〒' → g.x < g'.x) := by
  refine ⟨postalGlyphsAux_x_eq width xp ys cs pc 0, ?_⟩
  intro hw g hg g' hg' hch hch'
  have h1 := (postalGlyphsAux_x_eq width xp ys cs pc 0 g hg).1 hch
  have h2 := (postalGlyphsAux_x_eq width xp ys cs pc 0 g' hg').2 hch'
  rw [h1, h2]
  linarith

/-- C7 witness: with a constant width measurement of 4, the mark of the
column `['〒', '1']` at `x_postal = 10` sits at `9`, strictly left of
the digit at `10`. -/
theorem postal_mark_shift_witness :
    (Glyph.mk (10 - (4 : ℚ) / 4) (0 - ((0 : ℕ) : ℚ) * 20) '〒').x <
      (Glyph.mk (10 : ℚ) (0 - ((1 : ℕ) : ℚ) * 20) '1').x :=
  (postal_mark_shift (fun _ => 4) 10 0 20 ['〒', '1']).2 (by norm_num)
    (Glyph.mk (10 - (4 : ℚ) / 4) (0 - ((0 : ℕ) : ℚ) * 20) '〒')
    (by simp [postalGlyphs, postalGlyphsAux])
    (Glyph.mk (10 : ℚ) (0 - ((1 : ℕ) : ℚ) * 20) '1')
    (by simp [postalGlyphs, postalGlyphsAux])
    rfl (by decide)

/-- C8: for a record whose postal code and all four lines are blank
after stripping, the layout produces no glyphs at all. -/
theorem layout_blank_empty (width : Char → ℚ) (r : AddressRecord)
    (hp : strip r.postalCode = "") (h1 : strip r.addressLine1 = "")
    (h2 : strip r.addressLine2 = "") (h3 : strip r.company = "")
    (h4 : strip r.recipient = "") :
    create_pdf_layout width r = [] := by
  have hlines : activeLines r = [] := by
    simp [activeLines, h1, h2, h3, h4]
  simp [create_pdf_layout, hlines, hp, postalGlyphs, postalGlyphsAux,
    linesGlyphs, linesGlyphsAux]

/-- C8 witness: a record blank only after Unicode trimming (ideographic
spaces U+3000, an NBSP, and ASCII whitespace) lays out to the empty
sequence. -/
theorem layout_blank_empty_witness :
    create_pdf_layout (fun _ => 0) ⟨"　", " ", "　　", " ", " 　\t"⟩ = [] :=
  layout_blank_empty (fun _ => 0) ⟨"　", " ", "　　", " ", " 　\t"⟩
    rfl rfl rfl rfl rfl

theorem postalGlyphsAux_length (width : Char → ℚ) (xp ys cs : ℚ)
    (chars : List Char) (i : ℕ) :
    (postalGlyphsAux width xp ys cs chars i).length = chars.length := by
  induction chars generalizing i with
  | nil => rfl
  | cons c rest ih =>
      simp only [postalGlyphsAux, List.length_cons]
      rw [ih (i + 1)]

/-- C9: the postal-code column always emits exactly one glyph per
character of the postal code — the bottom-margin truncation of the
address columns is not applied there — and a postal glyph can land
below the `10 * mm` bottom margin used by `create_pdf`. -/
theorem postal_no_truncation :
    (∀ (width : Char → ℚ) (xp ys cs : ℚ) (pc : List Char),
       (postalGlyphs width xp ys cs pc).length = pc.length) ∧
    (∃ g ∈ postalGlyphs (fun _ => 0) 0 (10 * mm) 20 ['1', '2'],
       g.y < 10 * mm) := by
  constructor
  · intro width xp ys cs pc
    exact postalGlyphsAux_length width xp ys cs pc 0
  · refine ⟨Glyph.mk 0 (10 * mm - ((1 : ℕ) : ℚ) * 20) '2', ?_, ?_⟩
    · simp [postalGlyphs, postalGlyphsAux]
    · norm_num [mm]
